import Mathlib

/-!
Verification development for the adb-compass device-session engine.

The H.264 byte stream, the NAL extractor, the parameter-set caches, the
`adb devices -l` parser, the command runner with timeout and retry, the
agent response extraction and the scrcpy control-message encoders are
shallowly embedded from the Rust sources (`src-tauri/src/...`).  Bytes are
modelled as `Nat` (the code only ever compares them with the constants 0
and 1 and moves them around), Rust strings as `List Char`, and fallible
operations as `Except`.
-/

/-! ### H.264 start-code finder (services/scrcpy.rs, `extract_next_nal`) -/

/-- Start-code test at index `i`, exactly the loop-body condition of the
`find_start` closure: `data[i]==0 && data[i+1]==0 && (data[i+2]==1 ||
(data.len()>i+3 && data[i+2]==0 && data[i+3]==1))`.  The default value 2
is never produced by the in-range accesses of the Rust code. -/
def isStartAt (d : List Nat) (i : Nat) : Bool :=
  d.getD i 2 == 0 && d.getD (i+1) 2 == 0 &&
    (d.getD (i+2) 2 == 1 ||
      (decide (i + 3 < d.length) && d.getD (i+2) 2 == 0 && d.getD (i+3) 2 == 1))

/-- Linear scan `for i in lo..lo+n`, returning the first index whose
start-code test succeeds (the Rust `for i in 0..data.len().saturating_sub(3)`
loop, with `n` the number of remaining iterations). -/
def scan_start (d : List Nat) : Nat → Nat → Option Nat
  | _, 0 => none
  | i, n+1 => if isStartAt d i then some i else scan_start d (i+1) n

/-- The `find_start` closure of `extract_next_nal`. -/
def find_start (d : List Nat) : Option Nat :=
  scan_start d 0 (d.length - 3)

/-- Start-code prefix length decision of `extract_next_nal`:
`if nal_buffer.len() > 3 && nal_buffer[2] == 0 && nal_buffer[3] == 1 { 4 } else { 3 }`. -/
def code_len (b : List Nat) : Nat :=
  if decide (3 < b.length) && b.getD 2 2 == 0 && b.getD 3 2 == 1 then 4 else 3

/-- Model of `extract_next_nal` (services/scrcpy.rs:434-485).  The Rust
function mutates `nal_buffer`; here the updated buffer is returned as the
second component.  Note the drain up to the first start code happens even
when `None` is returned afterwards. -/
def extract_next_nal (buf : List Nat) : Option (List Nat) × List Nat :=
  match find_start buf with
  | none => (none, buf)
  | some s =>
    let b := buf.drop s
    let pl := code_len b
    match find_start (b.drop pl) with
    | none => (none, b)
    | some off => (some (b.take (pl + off)), b.drop (pl + off))

/-- Fuelled iteration of `extract_next_nal`; fuel `buf.length` always
suffices because each successful extraction removes at least three bytes. -/
def extract_all_fuel : Nat → List Nat → List (List Nat) × List Nat
  | 0, buf => ([], buf)
  | n+1, buf =>
    match extract_next_nal buf with
    | (some nal, rest) =>
      let p := extract_all_fuel n rest
      (nal :: p.1, p.2)
    | (none, rest) => ([], rest)

/-- The `while let Some(nal_data) = extract_next_nal(&mut nal_buffer)` loop
of `decode_and_stream`: extract complete NAL units until none remains,
returning the emitted NALs in order together with the final accumulator. -/
def extract_all (buf : List Nat) : List (List Nat) × List Nat :=
  extract_all_fuel buf.length buf

/-- The outer streaming loop of `decode_and_stream`: each socket read
appends a chunk to the accumulator and then drains all complete NAL units.
Returns all emitted NALs in order and the final accumulator. -/
def feed_chunks : List (List Nat) → List Nat → List (List Nat) × List Nat
  | [], buf => ([], buf)
  | c :: cs, buf =>
    let p := extract_all (buf ++ c)
    let q := feed_chunks cs p.2
    (p.1 ++ q.1, q.2)

/-! ### Valid Annex-B NAL units (spec §3 CapturedNAL / §8 property 2) -/

/-- Three-byte start-code pattern `00 00 01` fully contained at index `i`. -/
def pat3 (d : List Nat) (i : Nat) : Prop :=
  d.getD i 2 = 0 ∧ d.getD (i+1) 2 = 0 ∧ d.getD (i+2) 2 = 1

instance (d : List Nat) (i : Nat) : Decidable (pat3 d i) := by
  unfold pat3; infer_instance

/-- A byte sequence free of `00 00 01` patterns. -/
def NoStart (p : List Nat) : Prop := ∀ i < p.length, ¬ pat3 p i

instance (p : List Nat) : Decidable (NoStart p) := by
  unfold NoStart; infer_instance

/-- A valid Annex-B NAL unit: a 3- or 4-byte start code followed by a
non-empty payload that contains no start-code pattern (H.264 emulation
prevention) and does not end in a zero byte (no trailing zero run that
would merge with the next start code). -/
def ValidNal (u : List Nat) : Prop :=
  ∃ c p, (c = [0, 0, 1] ∨ c = [0, 0, 0, 1]) ∧ u = c ++ p ∧ p ≠ [] ∧
    NoStart p ∧ p.getLast? ≠ some 0

/-! ### Characterization of the scanner -/

theorem scan_start_eq_some {d : List Nat} :
    ∀ {n i0 s : Nat}, scan_start d i0 n = some s →
      i0 ≤ s ∧ s < i0 + n ∧ isStartAt d s = true ∧
        ∀ j, i0 ≤ j → j < s → isStartAt d j = false := by
  intro n
  induction n with
  | zero => intro i0 s h; simp [scan_start] at h
  | succ n ih =>
    intro i0 s h
    by_cases hs : isStartAt d i0
    · simp [scan_start, hs] at h
      subst h
      exact ⟨le_refl _, by omega, hs, fun j h1 h2 => absurd h1 (by omega)⟩
    · simp [scan_start, hs] at h
      obtain ⟨h1, h2, h3, h4⟩ := ih h
      refine ⟨by omega, by omega, h3, fun j hj1 hj2 => ?_⟩
      rcases Nat.eq_or_lt_of_le hj1 with rfl | hlt
      · exact Bool.of_not_eq_true hs
      · exact h4 j hlt hj2

theorem scan_start_eq_some_of {d : List Nat} :
    ∀ {n i0 s : Nat}, i0 ≤ s → s < i0 + n → isStartAt d s = true →
      (∀ j, i0 ≤ j → j < s → isStartAt d j = false) →
      scan_start d i0 n = some s := by
  intro n
  induction n with
  | zero => intro i0 s h1 h2; omega
  | succ n ih =>
    intro i0 s h1 h2 h3 h4
    rcases Nat.eq_or_lt_of_le h1 with rfl | hlt
    · simp [scan_start, h3]
    · have hi0 : isStartAt d i0 = false := h4 i0 (le_refl _) hlt
      simp [scan_start, hi0]
      exact ih hlt (by omega) h3 fun j hj1 hj2 => h4 j (by omega) hj2

theorem scan_start_eq_none {d : List Nat} :
    ∀ {n i0 : Nat}, scan_start d i0 n = none →
      ∀ j, i0 ≤ j → j < i0 + n → isStartAt d j = false := by
  intro n
  induction n with
  | zero => intro i0 _ j h1 h2; omega
  | succ n ih =>
    intro i0 h j h1 h2
    by_cases hs : isStartAt d i0
    · simp [scan_start, hs] at h
    · rcases Nat.eq_or_lt_of_le h1 with rfl | hlt
      · exact Bool.of_not_eq_true hs
      · simp [scan_start, hs] at h
        exact ih h j hlt (by omega)

theorem scan_start_eq_none_of {d : List Nat} :
    ∀ {n i0 : Nat}, (∀ j, i0 ≤ j → j < i0 + n → isStartAt d j = false) →
      scan_start d i0 n = none := by
  intro n
  induction n with
  | zero => intro i0 _; rfl
  | succ n ih =>
    intro i0 h
    have hi0 : isStartAt d i0 = false := h i0 (le_refl _) (by omega)
    simp [scan_start, hi0]
    exact ih fun j hj1 hj2 => h j (by omega) (by omega)

theorem find_start_some {d : List Nat} {s : Nat} (h : find_start d = some s) :
    s + 3 < d.length ∧ isStartAt d s = true ∧ ∀ j < s, isStartAt d j = false := by
  obtain ⟨_, h2, h3, h4⟩ := scan_start_eq_some h
  exact ⟨by omega, h3, fun j hj => h4 j (Nat.zero_le _) hj⟩

theorem find_start_some_of {d : List Nat} {s : Nat} (h1 : s + 3 < d.length)
    (h2 : isStartAt d s = true) (h3 : ∀ j < s, isStartAt d j = false) :
    find_start d = some s :=
  scan_start_eq_some_of (Nat.zero_le _) (by omega) h2 fun j _ hj => h3 j hj

theorem find_start_none {d : List Nat} (h : find_start d = none) :
    ∀ j, j + 3 < d.length → isStartAt d j = false :=
  fun j hj => scan_start_eq_none h j (Nat.zero_le _) (by omega)

theorem find_start_none_of {d : List Nat}
    (h : ∀ j, j + 3 < d.length → isStartAt d j = false) : find_start d = none :=
  scan_start_eq_none_of fun j _ hj => h j (by omega)

/-! ### Byte-access helper lemmas -/

theorem getD_append_left {d c : List Nat} {k : Nat} (h : k < d.length) :
    (d ++ c).getD k 2 = d.getD k 2 := by
  simp [List.getD_eq_getElem?_getD, List.getElem?_append_left h]

theorem getD_drop {d : List Nat} {s k : Nat} :
    (d.drop s).getD k 2 = d.getD (s + k) 2 := by
  simp [List.getD_eq_getElem?_getD, List.getElem?_drop]

theorem getD_take {d : List Nat} {n k : Nat} (h : k < n) :
    (d.take n).getD k 2 = d.getD k 2 := by
  simp [List.getD_eq_getElem?_getD, List.getElem?_take_of_lt h]

theorem isStartAt_drop {d : List Nat} {s i : Nat} :
    isStartAt (d.drop s) i = isStartAt d (s + i) := by
  rw [Bool.eq_iff_iff]
  simp only [isStartAt, Bool.and_eq_true, Bool.or_eq_true, beq_iff_eq,
    decide_eq_true_eq, List.length_drop, getD_drop, Nat.add_assoc]
  constructor
  · rintro ⟨⟨h1, h2⟩, h3 | ⟨⟨hl, h4⟩, h5⟩⟩
    · exact ⟨⟨h1, h2⟩, Or.inl h3⟩
    · exact ⟨⟨h1, h2⟩, Or.inr ⟨⟨by omega, h4⟩, h5⟩⟩
  · rintro ⟨⟨h1, h2⟩, h3 | ⟨⟨hl, h4⟩, h5⟩⟩
    · exact ⟨⟨h1, h2⟩, Or.inl h3⟩
    · exact ⟨⟨h1, h2⟩, Or.inr ⟨⟨by omega, h4⟩, h5⟩⟩

theorem isStartAt_append {d c : List Nat} {i : Nat} (h : i + 3 < d.length) :
    isStartAt (d ++ c) i = isStartAt d i := by
  rw [Bool.eq_iff_iff]
  simp only [isStartAt, Bool.and_eq_true, Bool.or_eq_true, beq_iff_eq,
    decide_eq_true_eq, List.length_append,
    getD_append_left (show i < d.length by omega),
    getD_append_left (show i + 1 < d.length by omega),
    getD_append_left (show i + 2 < d.length by omega),
    getD_append_left h]
  constructor
  · rintro ⟨⟨h1, h2⟩, h3 | ⟨⟨hl, h4⟩, h5⟩⟩
    · exact ⟨⟨h1, h2⟩, Or.inl h3⟩
    · exact ⟨⟨h1, h2⟩, Or.inr ⟨⟨by omega, h4⟩, h5⟩⟩
  · rintro ⟨⟨h1, h2⟩, h3 | ⟨⟨hl, h4⟩, h5⟩⟩
    · exact ⟨⟨h1, h2⟩, Or.inl h3⟩
    · exact ⟨⟨h1, h2⟩, Or.inr ⟨⟨by omega, h4⟩, h5⟩⟩

theorem find_start_append {d c : List Nat} {s : Nat} (h : find_start d = some s) :
    find_start (d ++ c) = some s := by
  obtain ⟨h1, h2, h3⟩ := find_start_some h
  refine find_start_some_of (by simp [List.length_append]; omega) ?_ ?_
  · rw [isStartAt_append h1]; exact h2
  · intro j hj
    rw [isStartAt_append (by omega)]
    exact h3 j hj

/-! ### Anatomy of a successful extraction -/

theorem code_len_eq (b : List Nat) : code_len b = 3 ∨ code_len b = 4 := by
  unfold code_len; split <;> simp

theorem extract_next_nal_some_anatomy {buf nal rest : List Nat}
    (h : extract_next_nal buf = (some nal, rest)) :
    ∃ s off, find_start buf = some s ∧
      find_start ((buf.drop s).drop (code_len (buf.drop s))) = some off ∧
      nal = (buf.drop s).take (code_len (buf.drop s) + off) ∧
      rest = (buf.drop s).drop (code_len (buf.drop s) + off) := by
  unfold extract_next_nal at h
  rcases hf : find_start buf with _ | s
  · rw [hf] at h; simp at h
  · rw [hf] at h
    simp only at h
    rcases hf2 : find_start ((buf.drop s).drop (code_len (buf.drop s))) with _ | off
    · rw [hf2] at h; simp at h
    · rw [hf2] at h
      simp only [Prod.mk.injEq, Option.some.injEq] at h
      exact ⟨s, off, rfl, hf2, h.1.symm, h.2.symm⟩

theorem extract_next_nal_nil : extract_next_nal [] = (none, []) := rfl

theorem extract_next_nal_some_len {buf nal rest : List Nat}
    (h : extract_next_nal buf = (some nal, rest)) : rest.length < buf.length := by
  obtain ⟨s, off, hf, hf2, hnal, hrest⟩ := extract_next_nal_some_anatomy h
  obtain ⟨hs1, -, -⟩ := find_start_some hf
  obtain ⟨ho1, -, -⟩ := find_start_some hf2
  have hb : (buf.drop s).length = buf.length - s := List.length_drop s buf
  rw [List.length_drop] at ho1
  have hr : rest.length = (buf.drop s).length - (code_len (buf.drop s) + off) := by
    rw [hrest, List.length_drop]
  rcases code_len_eq (buf.drop s) with hc | hc <;> omega

theorem extract_all_fuel_irrel :
    ∀ {n m : Nat} {buf : List Nat}, buf.length ≤ n → buf.length ≤ m →
      extract_all_fuel n buf = extract_all_fuel m buf := by
  intro n
  induction n with
  | zero =>
    intro m buf hn _
    have hb : buf = [] := List.length_eq_zero.mp (by omega)
    subst hb
    cases m with
    | zero => rfl
    | succ m => simp [extract_all_fuel, extract_next_nal_nil]
  | succ n ih =>
    intro m buf hn hm
    cases m with
    | zero =>
      have hb : buf = [] := List.length_eq_zero.mp (by omega)
      subst hb
      simp [extract_all_fuel, extract_next_nal_nil]
    | succ m =>
      rcases hx : extract_next_nal buf with ⟨o, r⟩
      cases o with
      | some nal =>
        have hlt := extract_next_nal_some_len hx
        simp only [extract_all_fuel, hx]
        rw [@ih m r (by omega) (by omega)]
      | none => simp only [extract_all_fuel, hx]

theorem extract_all_some {buf nal rest : List Nat}
    (h : extract_next_nal buf = (some nal, rest)) :
    extract_all buf = (nal :: (extract_all rest).1, (extract_all rest).2) := by
  have hlen := extract_next_nal_some_len h
  unfold extract_all
  obtain ⟨k, hk⟩ : ∃ k, buf.length = k + 1 := ⟨buf.length - 1, by omega⟩
  rw [hk]
  simp only [extract_all_fuel, h]
  rw [extract_all_fuel_irrel (n := k) (m := rest.length) (by omega) (le_refl _)]

theorem extract_all_none {buf rest : List Nat}
    (h : extract_next_nal buf = (none, rest)) : extract_all buf = ([], rest) := by
  unfold extract_all
  cases hb : buf.length with
  | zero =>
    have hnil : buf = [] := List.length_eq_zero.mp hb
    subst hnil
    rw [extract_next_nal_nil] at h
    simp only [extract_all_fuel]
    exact congrArg _ (Prod.mk.injEq .. ▸ h).2
  | succ k => simp [extract_all_fuel, h]

theorem extract_all_congr {X Y : List Nat}
    (h : extract_next_nal X = extract_next_nal Y) : extract_all X = extract_all Y := by
  rcases hx : extract_next_nal X with ⟨o, r⟩
  have hy : extract_next_nal Y = (o, r) := by rw [← h, hx]
  cases o with
  | some nal => rw [extract_all_some hx, extract_all_some hy]
  | none => rw [extract_all_none hx, extract_all_none hy]

/-! ### Stability of extraction under appending further stream bytes -/

theorem code_len_append {b c : List Nat} (h : 3 < b.length) :
    code_len (b ++ c) = code_len b := by
  unfold code_len
  rw [getD_append_left (by omega), getD_append_left (by omega),
    decide_eq_true (p := 3 < (b ++ c).length) (by simp [List.length_append]; omega),
    decide_eq_true (p := 3 < b.length) h]

theorem extract_next_nal_append_some {buf nal rest c : List Nat}
    (h : extract_next_nal buf = (some nal, rest)) :
    extract_next_nal (buf ++ c) = (some nal, rest ++ c) := by
  obtain ⟨s, off, hf, hf2, hnal, hrest⟩ := extract_next_nal_some_anatomy h
  obtain ⟨hs1, -, -⟩ := find_start_some hf
  obtain ⟨ho1, -, -⟩ := find_start_some hf2
  rw [List.length_drop, List.length_drop] at ho1
  have hcl := code_len_eq (buf.drop s)
  have hblen : code_len (buf.drop s) + off + 4 ≤ (buf.drop s).length := by
    rw [List.length_drop]; omega
  have hb3 : 3 < (buf.drop s).length := by omega
  have hfApp : find_start (buf ++ c) = some s := find_start_append hf
  have hdrop : (buf ++ c).drop s = buf.drop s ++ c :=
    List.drop_append_of_le_length (by omega)
  have hclapp : code_len (buf.drop s ++ c) = code_len (buf.drop s) :=
    code_len_append hb3
  have hdrop2 : (buf.drop s ++ c).drop (code_len (buf.drop s)) =
      (buf.drop s).drop (code_len (buf.drop s)) ++ c :=
    List.drop_append_of_le_length (by omega)
  unfold extract_next_nal
  rw [hfApp]
  simp only [hdrop, hclapp, hdrop2, find_start_append hf2]
  rw [List.take_append_of_le_length (by omega),
    List.drop_append_of_le_length (by omega), ← hnal, ← hrest]

theorem extract_next_nal_append_none {buf rest c : List Nat}
    (h : extract_next_nal buf = (none, rest)) :
    extract_next_nal (buf ++ c) = extract_next_nal (rest ++ c) := by
  unfold extract_next_nal at h
  rcases hf : find_start buf with _ | s
  · rw [hf] at h
    simp only [Prod.mk.injEq] at h
    rw [h.2]
  · rw [hf] at h
    simp only at h
    rcases hf2 : find_start ((buf.drop s).drop (code_len (buf.drop s))) with _ | off
    · rw [hf2] at h
      simp only [Prod.mk.injEq] at h
      have hrest : rest = buf.drop s := h.2.symm
      subst hrest
      -- the appended buffer first drains to the same start code, then both
      -- sides compute identically on `buf.drop s ++ c`
      obtain ⟨hs1, hs2, hs3⟩ := find_start_some hf
      have hfApp : find_start (buf ++ c) = some s := find_start_append hf
      have hdrop : (buf ++ c).drop s = buf.drop s ++ c :=
        List.drop_append_of_le_length (by omega)
      have hds : isStartAt (buf.drop s) 0 = true := by
        rw [isStartAt_drop]; simpa using hs2
      have hlen : 3 < (buf.drop s).length := by rw [List.length_drop]; omega
      have hfr : find_start (buf.drop s ++ c) = some 0 := by
        refine find_start_some_of (by simp [List.length_append]; omega) ?_ ?_
        · rw [isStartAt_append (by omega)]; exact hds
        · intro j hj; omega
      unfold extract_next_nal
      rw [hfApp, hfr]
      simp only [List.drop_zero, hdrop]
    · rw [hf2] at h
      simp at h

/-- Streaming/batch agreement: extracting from `buf ++ c` emits exactly what
`buf` alone emits followed by what the carried-over accumulator emits once
`c` arrives. -/
theorem extract_all_append_aux :
    ∀ (n : Nat) (buf c : List Nat), buf.length ≤ n →
      extract_all (buf ++ c) =
        ((extract_all buf).1 ++ (extract_all ((extract_all buf).2 ++ c)).1,
          (extract_all ((extract_all buf).2 ++ c)).2) := by
  intro n
  induction n with
  | zero =>
    intro buf c hn
    have hb : buf = [] := List.length_eq_zero.mp (by omega)
    subst hb
    simp [extract_all, extract_all_fuel]
  | succ n ih =>
    intro buf c hn
    rcases hx : extract_next_nal buf with ⟨o, r⟩
    cases o with
    | some nal =>
      have hlt := extract_next_nal_some_len hx
      rw [extract_all_some (extract_next_nal_append_some (c := c) hx),
        extract_all_some hx]
      rw [ih r c (by omega)]
      simp
    | none =>
      rw [extract_all_congr (extract_next_nal_append_none (c := c) hx),
        extract_all_none hx]
      simp

theorem extract_all_append (buf c : List Nat) :
    extract_all (buf ++ c) =
      ((extract_all buf).1 ++ (extract_all ((extract_all buf).2 ++ c)).1,
        (extract_all ((extract_all buf).2 ++ c)).2) :=
  extract_all_append_aux buf.length buf c (le_refl _)

theorem feed_chunks_eq_extract_all :
    ∀ (cs : List (List Nat)) (buf : List Nat), cs ≠ [] →
      feed_chunks cs buf = extract_all (buf ++ cs.flatten) := by
  intro cs
  induction cs with
  | nil => intro buf h; exact absurd rfl h
  | cons c cs ih =>
    intro buf _
    by_cases hcs : cs = []
    · subst hcs
      simp [feed_chunks, List.flatten]
    · simp only [feed_chunks, List.flatten_cons, ← List.append_assoc]
      rw [ih _ hcs, extract_all_append (buf ++ c) cs.flatten]

/-- Feeding chunks into an empty accumulator is the same as one batch
extraction over the whole byte stream. -/
theorem feed_chunks_flatten (cs : List (List Nat)) :
    feed_chunks cs [] = extract_all cs.flatten := by
  by_cases h : cs = []
  · subst h; rfl
  · rw [feed_chunks_eq_extract_all cs [] h]; simp

/-! ### Extraction behaviour on valid NAL streams -/

theorem getD_append_right {d c : List Nat} {k : Nat} (h : d.length ≤ k) :
    (d ++ c).getD k 2 = c.getD (k - d.length) 2 := by
  simp [List.getD_eq_getElem?_getD, List.getElem?_append_right h]

theorem isStartAt_eq_true_iff {d : List Nat} {i : Nat} : isStartAt d i = true ↔
    (d.getD i 2 = 0 ∧ d.getD (i+1) 2 = 0 ∧
      (d.getD (i+2) 2 = 1 ∨ (i + 3 < d.length ∧ d.getD (i+2) 2 = 0 ∧ d.getD (i+3) 2 = 1))) := by
  simp [isStartAt, and_assoc]

theorem validNal_payload_last {p : List Nat} (hne : p ≠ []) (hlast : p.getLast? ≠ some 0) :
    p.getD (p.length - 1) 2 ≠ 0 := by
  intro h0
  apply hlast
  have hlen : 0 < p.length := List.length_pos.mpr hne
  have hi : p.length - 1 < p.length := by omega
  rw [List.getD_eq_getElem?_getD, List.getElem?_eq_getElem hi] at h0
  simp only [Option.getD_some] at h0
  rw [List.getLast?_eq_getElem?, List.getElem?_eq_getElem hi, h0]

/-- No start code is found anywhere strictly inside the payload of a valid
NAL, even when the following bytes `R` of the stream are taken into account,
provided `R` does not begin with the byte 1. -/
theorem isStartAt_payload_false {p R : List Nat} (hns : NoStart p)
    (hlast : p.getD (p.length - 1) 2 ≠ 0) (hR0 : R.getD 0 2 ≠ 1)
    {i : Nat} (hi : i < p.length) : isStartAt (p ++ R) i = false := by
  rw [Bool.eq_false_iff]
  intro htrue
  rw [isStartAt_eq_true_iff] at htrue
  obtain ⟨h1, h2, h3⟩ := htrue
  by_cases c1 : i + 1 = p.length
  · rw [getD_append_left (by omega)] at h1
    exact hlast (by rwa [show p.length - 1 = i by omega])
  · by_cases c2 : i + 2 = p.length
    · rw [getD_append_left (by omega)] at h2
      exact hlast (by rwa [show p.length - 1 = i + 1 by omega])
    · have hi2 : i + 2 < p.length := by omega
      rcases h3 with h3 | ⟨hl, h4, h5⟩
      · exact hns i hi ⟨by rwa [getD_append_left (by omega)] at h1,
          by rwa [getD_append_left (by omega)] at h2,
          by rwa [getD_append_left (by omega)] at h3⟩
      · by_cases c3 : i + 3 = p.length
        · rw [c3, getD_append_right (le_refl _)] at h5
          simp only [Nat.sub_self] at h5
          exact hR0 h5
        · have hi3 : i + 3 < p.length := by omega
          exact hns (i+1) (by omega) ⟨by rwa [getD_append_left (by omega)] at h2,
            by rwa [getD_append_left (by omega)] at h4,
            by rwa [getD_append_left (by omega)] at h5⟩

theorem valid_u_start {c p : List Nat} (hc : c = [0, 0, 1] ∨ c = [0, 0, 0, 1])
    (hne : p ≠ []) : isStartAt (c ++ p) 0 = true := by
  have hp : 0 < p.length := List.length_pos.mpr hne
  rw [isStartAt_eq_true_iff]
  rcases hc with rfl | rfl
  · exact ⟨rfl, rfl, Or.inl rfl⟩
  · exact ⟨rfl, rfl, Or.inr ⟨by simp, rfl, rfl⟩⟩

theorem code_len_c3 {p : List Nat} : code_len ([0, 0, 1] ++ p) = 3 := by
  simp [code_len]

theorem code_len_c4 {p : List Nat} : code_len ([0, 0, 0, 1] ++ p) = 4 := by
  simp [code_len]

/-- A lone valid NAL is never extracted: the extractor waits for the next
start code, so the buffer is left untouched. -/
theorem extract_next_nal_valid_alone {u : List Nat} (hu : ValidNal u) :
    extract_next_nal u = (none, u) := by
  obtain ⟨c, p, hc, rfl, hne, hns, hlast⟩ := hu
  have hlast' := validNal_payload_last hne hlast
  have hstart : isStartAt (c ++ p) 0 = true := valid_u_start hc hne
  have hp : 0 < p.length := List.length_pos.mpr hne
  have hlen : 3 < (c ++ p).length := by
    rcases hc with rfl | rfl
    · simp; omega
    · simp
  have hfind : find_start (c ++ p) = some 0 :=
    find_start_some_of (by omega) hstart (fun j hj => absurd hj (by omega))
  have hpl : code_len (c ++ p) = c.length := by
    rcases hc with rfl | rfl
    · exact code_len_c3
    · exact code_len_c4
  have hdrop : (c ++ p).drop c.length = p := List.drop_left c p
  have hfp : find_start p = none := by
    apply find_start_none_of
    intro j hj
    have hx := isStartAt_payload_false (R := []) hns hlast' (by decide) (i := j) (by omega)
    rwa [List.append_nil] at hx
  unfold extract_next_nal
  rw [hfind]
  simp only [List.drop_zero, hpl, hdrop, hfp]

/-- A valid NAL directly followed by the (sufficiently revealed) start of the
next NAL is extracted whole, leaving exactly the following bytes. -/
theorem extract_next_nal_valid_followed {u R : List Nat} (hu : ValidNal u)
    (hR : (∃ t, R = 0 :: 0 :: 1 :: t ∧ t ≠ []) ∨ (∃ t, R = 0 :: 0 :: 0 :: 1 :: t)) :
    extract_next_nal (u ++ R) = (some u, R) := by
  obtain ⟨c, p, hc, rfl, hne, hns, hlast⟩ := hu
  have hlast' := validNal_payload_last hne hlast
  have hp : 0 < p.length := List.length_pos.mpr hne
  have hR4 : 4 ≤ R.length := by
    rcases hR with ⟨t, rfl, ht⟩ | ⟨t, rfl⟩
    · have := List.length_pos.mpr ht; simp; omega
    · simp
  have hR0 : R.getD 0 2 = 0 := by
    rcases hR with ⟨t, rfl, ht⟩ | ⟨t, rfl⟩ <;> rfl
  have hRs : isStartAt R 0 = true := by
    rw [isStartAt_eq_true_iff]
    rcases hR with ⟨t, rfl, ht⟩ | ⟨t, rfl⟩
    · exact ⟨rfl, rfl, Or.inl rfl⟩
    · exact ⟨rfl, rfl, Or.inr ⟨by simp, rfl, rfl⟩⟩
  have hstart : isStartAt (c ++ p) 0 = true := valid_u_start hc hne
  have hulen : 3 < (c ++ p).length := by
    rcases hc with rfl | rfl
    · simp; omega
    · simp
  have hstart2 : isStartAt ((c ++ p) ++ R) 0 = true := by
    rw [isStartAt_append (by omega)]; exact hstart
  have hfind : find_start ((c ++ p) ++ R) = some 0 :=
    find_start_some_of (by simp [List.length_append]; omega) hstart2
      (fun j hj => absurd hj (by omega))
  have hpl : code_len ((c ++ p) ++ R) = c.length := by
    rw [code_len_append hulen]
    rcases hc with rfl | rfl
    · exact code_len_c3
    · exact code_len_c4
  have hdrop : ((c ++ p) ++ R).drop c.length = p ++ R := by
    rw [List.append_assoc]; exact List.drop_left c (p ++ R)
  have hfp : find_start (p ++ R) = some p.length := by
    apply find_start_some_of
    · simp [List.length_append]; omega
    · have hd : (p ++ R).drop p.length = R := List.drop_left p R
      have hsh := isStartAt_drop (d := p ++ R) (s := p.length) (i := 0)
      rw [hd] at hsh
      have h2 : isStartAt (p ++ R) (p.length + 0) = true := by rw [← hsh]; exact hRs
      simpa using h2
    · intro j hj
      exact isStartAt_payload_false hns hlast' (by omega) hj
  have htake : ((c ++ p) ++ R).take (c.length + p.length) = c ++ p := by
    rw [← List.length_append]; exact List.take_left _ R
  have hdrop2 : ((c ++ p) ++ R).drop (c.length + p.length) = R := by
    rw [← List.length_append]; exact List.drop_left _ R
  unfold extract_next_nal
  rw [hfind]
  simp only [List.drop_zero, hpl, hdrop, hfp]
  rw [htake, hdrop2]

theorem valid_flatten_shape {v : List Nat} {vs : List (List Nat)} (hv : ValidNal v) :
    (∃ t, v ++ vs.flatten = 0 :: 0 :: 1 :: t ∧ t ≠ []) ∨
      (∃ t, v ++ vs.flatten = 0 :: 0 :: 0 :: 1 :: t) := by
  obtain ⟨c, p, hc, rfl, hne, -, -⟩ := hv
  rcases hc with rfl | rfl
  · refine Or.inl ⟨p ++ vs.flatten, by simp, ?_⟩
    intro h
    rcases List.append_eq_nil.mp h with ⟨hp, -⟩
    exact hne hp
  · exact Or.inr ⟨p ++ vs.flatten, by simp⟩

/-- Batch extraction over a stream of valid NAL units emits every unit but
the last, in order; the last unit stays in the accumulator because its end
can only be recognized from a further start code that never arrives. -/
theorem extract_all_valid_stream :
    ∀ (us : List (List Nat)), (∀ u ∈ us, ValidNal u) → ∀ (hne : us ≠ []),
      extract_all us.flatten = (us.dropLast, us.getLast hne) := by
  intro us
  induction us with
  | nil => intro _ h; exact absurd rfl h
  | cons u vs ih =>
    intro hv _
    have hu : ValidNal u := hv u (List.mem_cons_self _ _)
    cases vs with
    | nil =>
      simp only [List.flatten_cons, List.flatten_nil, List.append_nil]
      rw [extract_all_none (extract_next_nal_valid_alone hu)]
      simp
    | cons v vs' =>
      have hvv : ValidNal v := hv v (by simp)
      have hstep : extract_next_nal (u ++ (v :: vs').flatten) =
          (some u, (v :: vs').flatten) := by
        apply extract_next_nal_valid_followed hu
        simpa [List.flatten_cons] using @valid_flatten_shape v vs' hvv
      rw [List.flatten_cons, extract_all_some hstep,
        ih (fun w hw => hv w (List.mem_cons_of_mem _ hw)) (by simp)]
      simp [List.getLast]

/-- C1 is false as stated: the concatenation of N = 2 valid start-code
prefixed NAL units, fed as a single chunk, yields exactly one extracted NAL
(the second remains pending in the accumulator), not two. -/
theorem C1_counterexample :
    ValidNal [0, 0, 1, 7] ∧ ValidNal [0, 0, 1, 8] ∧
      feed_chunks [[0, 0, 1, 7, 0, 0, 1, 8]] [] = ([[0, 0, 1, 7]], [0, 0, 1, 8]) ∧
      ([[0, 0, 1, 7]] : List (List Nat)).length ≠ 2 := by
  refine ⟨⟨[0, 0, 1], [7], Or.inl rfl, rfl, by decide, by decide, by decide⟩,
    ⟨[0, 0, 1], [8], Or.inl rfl, rfl, by decide, by decide, by decide⟩, ?_, by decide⟩
  decide

/-- C1 (amended): for any byte sequence formed by concatenating N ≥ 1 valid
NAL units (each prefixed by `00 00 01` or `00 00 00 01`), feeding the bytes
to the extractor driven by the streaming loop in arbitrary chunk sizes
yields exactly the first N−1 NAL units, in arrival order; the final NAL unit
is never emitted as a trailing partial — it remains in the accumulator. -/
theorem C1_stream_extraction (us cs : List (List Nat))
    (hv : ∀ u ∈ us, ValidNal u) (hne : us ≠ [])
    (hcs : cs.flatten = us.flatten) :
    feed_chunks cs [] = (us.dropLast, us.getLast hne) := by
  rw [feed_chunks_flatten, hcs]
  exact extract_all_valid_stream us hv hne

/-- Witness for C1 (amended): three valid NAL units chunked at arbitrary
boundaries produce the first two, with the third left in the accumulator. -/
theorem C1_witness :
    feed_chunks [[0, 0], [1, 7, 0], [0, 1, 8, 9, 0], [0, 0, 1, 5, 5]] [] =
      ([[0, 0, 1, 7], [0, 0, 1, 8, 9]], [0, 0, 0, 1, 5, 5]) := by
  have hv : ∀ u ∈ ([[0, 0, 1, 7], [0, 0, 1, 8, 9], [0, 0, 0, 1, 5, 5]] :
      List (List Nat)), ValidNal u := by
    intro u hu
    simp only [List.mem_cons, List.not_mem_nil, or_false] at hu
    rcases hu with rfl | rfl | rfl
    · exact ⟨[0, 0, 1], [7], Or.inl rfl, rfl, by decide, by decide, by decide⟩
    · exact ⟨[0, 0, 1], [8, 9], Or.inl rfl, rfl, by decide, by decide, by decide⟩
    · exact ⟨[0, 0, 0, 1], [5, 5], Or.inr rfl, rfl, by decide, by decide, by decide⟩
  exact C1_stream_extraction _ _ hv (by decide) (by decide)

theorem getD_of_le_length {d : List Nat} {k : Nat} (h : d.length ≤ k) :
    d.getD k 2 = 2 := by
  simp [List.getD_eq_getElem?_getD, List.getElem?_eq_none h]

theorem take3_eq_code {b : List Nat} (hl : 3 ≤ b.length) (h0 : b.getD 0 2 = 0)
    (h1 : b.getD 1 2 = 0) (h2 : b.getD 2 2 = 1) : b.take 3 = [0, 0, 1] := by
  rcases b with - | ⟨x, - | ⟨y, - | ⟨z, r⟩⟩⟩
  · simp at hl
  · simp at hl
  · simp at hl
  · simp only [List.getD_cons_zero, List.getD_cons_succ] at h0 h1 h2
    subst h0; subst h1; subst h2
    rfl

theorem take4_eq_code {b : List Nat} (hl : 4 ≤ b.length) (h0 : b.getD 0 2 = 0)
    (h1 : b.getD 1 2 = 0) (h2 : b.getD 2 2 = 0) (h3 : b.getD 3 2 = 1) :
    b.take 4 = [0, 0, 0, 1] := by
  rcases b with - | ⟨x, - | ⟨y, - | ⟨z, - | ⟨w, r⟩⟩⟩⟩
  · simp at hl
  · simp at hl
  · simp at hl
  · simp at hl
  · simp only [List.getD_cons_zero, List.getD_cons_succ] at h0 h1 h2 h3
    subst h0; subst h1; subst h2; subst h3
    rfl


/-- C10: every NAL unit returned by `extract_next_nal` begins with an
Annex-B start code and contains no further `00 00 01` pattern after that
prefix; the bytes preceding the first start code are silently discarded
(they contain no start code and are not part of the output), and the
remaining accumulator begins with the next start code. -/
theorem C10_extracted_nal_invariants {buf nal rest : List Nat}
    (h : extract_next_nal buf = (some nal, rest)) :
    ∃ g : List Nat, buf = g ++ (nal ++ rest) ∧
      (∀ j < g.length, isStartAt buf j = false) ∧
      ((nal.take 3 = [0, 0, 1] ∧ code_len nal = 3) ∨
        (nal.take 4 = [0, 0, 0, 1] ∧ code_len nal = 4)) ∧
      (∀ i, code_len nal ≤ i → ¬ pat3 nal i) ∧
      (rest.getD 0 2 = 0 ∧ rest.getD 1 2 = 0 ∧
        (rest.getD 2 2 = 1 ∨ (rest.getD 2 2 = 0 ∧ rest.getD 3 2 = 1))) := by
  obtain ⟨s, off, hf, hf2, hnal, hrest⟩ := extract_next_nal_some_anatomy h
  obtain ⟨hs1, hs2, hs3⟩ := find_start_some hf
  obtain ⟨ho1, ho2, ho3⟩ := find_start_some hf2
  rw [List.length_drop, List.length_drop] at ho1
  have hcl := code_len_eq (buf.drop s)
  have hlb : code_len (buf.drop s) + off + 4 ≤ (buf.drop s).length := by
    rw [List.length_drop]; omega
  have hlen_nal : nal.length = code_len (buf.drop s) + off := by
    rw [hnal, List.length_take]; omega
  have hb0 : isStartAt (buf.drop s) 0 = true := by
    rw [isStartAt_drop]; simpa using hs2
  rw [isStartAt_eq_true_iff] at hb0
  obtain ⟨hb0a, hb0b, hb0c⟩ := hb0
  have hg0 : nal.getD 0 2 = 0 := by rw [hnal, getD_take (by omega)]; exact hb0a
  have hg1 : nal.getD 1 2 = 0 := by rw [hnal, getD_take (by omega)]; exact hb0b
  have hclnal : code_len nal = code_len (buf.drop s) := by
    by_cases hc3 : code_len (buf.drop s) + off ≤ 3
    · have hpl : code_len (buf.drop s) = 3 := by rcases hcl with hc | hc <;> omega
      rw [hpl]
      unfold code_len
      rw [if_neg]
      simp only [Bool.and_eq_true, beq_iff_eq, decide_eq_true_eq]
      rintro ⟨⟨hx, -⟩, -⟩
      omega
    · have h3 : 3 < nal.length := by omega
      have hn2 : nal.getD 2 2 = (buf.drop s).getD 2 2 := by
        rw [hnal, getD_take (by omega)]
      have hn3 : nal.getD 3 2 = (buf.drop s).getD 3 2 := by
        rw [hnal, getD_take (by omega)]
      unfold code_len
      rw [decide_eq_true h3,
        decide_eq_true (show 3 < (buf.drop s).length by omega), hn2, hn3]
  refine ⟨buf.take s, ?_, ?_, ?_, ?_, ?_⟩
  · rw [hnal, hrest, List.take_append_drop]
    exact (List.take_append_drop s buf).symm
  · intro j hj
    rw [List.length_take] at hj
    exact hs3 j (by omega)
  · rcases hb0c with h2eq | ⟨-, h2eq, h3eq⟩
    · have hg2 : nal.getD 2 2 = 1 := by rw [hnal, getD_take (by omega)]; exact h2eq
      refine Or.inl ⟨take3_eq_code (by omega) hg0 hg1 hg2, ?_⟩
      unfold code_len
      rw [if_neg]
      simp only [Bool.and_eq_true, beq_iff_eq, decide_eq_true_eq]
      rintro ⟨⟨-, hx⟩, -⟩
      omega
    · have hpl4 : code_len (buf.drop s) = 4 := by
        unfold code_len
        rw [if_pos]
        simp only [Bool.and_eq_true, beq_iff_eq, decide_eq_true_eq]
        exact ⟨⟨by omega, h2eq⟩, h3eq⟩
      have hg2 : nal.getD 2 2 = 0 := by rw [hnal, getD_take (by omega)]; exact h2eq
      have hg3 : nal.getD 3 2 = 1 := by rw [hnal, getD_take (by omega)]; exact h3eq
      refine Or.inr ⟨take4_eq_code (by omega) hg0 hg1 hg2 hg3, ?_⟩
      unfold code_len
      rw [if_pos]
      simp only [Bool.and_eq_true, beq_iff_eq, decide_eq_true_eq]
      exact ⟨⟨by omega, hg2⟩, hg3⟩
  · intro i hi hpat
    rw [hclnal] at hi
    obtain ⟨hp0, hp1, hp2⟩ := hpat
    by_cases hrng : i + 2 < nal.length
    · -- the pattern sits strictly before the second start code: contradiction
      -- with first-match minimality of the inner scan
      have hj : i - code_len (buf.drop s) < off := by omega
      have e0 : ((buf.drop s).drop (code_len (buf.drop s))).getD
          (i - code_len (buf.drop s)) 2 = nal.getD i 2 := by
        rw [getD_drop, hnal, getD_take (by omega),
          show code_len (buf.drop s) + (i - code_len (buf.drop s)) = i by omega]
      have e1 : ((buf.drop s).drop (code_len (buf.drop s))).getD
          (i - code_len (buf.drop s) + 1) 2 = nal.getD (i + 1) 2 := by
        rw [getD_drop, hnal, getD_take (by omega),
          show code_len (buf.drop s) + (i - code_len (buf.drop s) + 1) = i + 1 by omega]
      have e2 : ((buf.drop s).drop (code_len (buf.drop s))).getD
          (i - code_len (buf.drop s) + 2) 2 = nal.getD (i + 2) 2 := by
        rw [getD_drop, hnal, getD_take (by omega),
          show code_len (buf.drop s) + (i - code_len (buf.drop s) + 2) = i + 2 by omega]
      have htrue : isStartAt ((buf.drop s).drop (code_len (buf.drop s)))
          (i - code_len (buf.drop s)) = true := by
        rw [isStartAt_eq_true_iff]
        exact ⟨e0.trans hp0, e1.trans hp1, Or.inl (e2.trans hp2)⟩
      have hfalse := ho3 _ hj
      rw [htrue] at hfalse
      simp at hfalse
    · have : nal.getD (i + 2) 2 = 2 := getD_of_le_length (by omega)
      omega
  · have hiff := isStartAt_eq_true_iff.mp ho2
    obtain ⟨q0, q1, q2⟩ := hiff
    have er : ∀ k, rest.getD k 2 =
        ((buf.drop s).drop (code_len (buf.drop s))).getD (off + k) 2 := by
      intro k
      simp only [hrest, getD_drop]
      congr 1
      omega
    refine ⟨?_, ?_, ?_⟩
    · rw [er 0, show off + 0 = off by omega]; exact q0
    · rw [er 1]; exact q1
    · rcases q2 with q2 | ⟨-, q2, q3⟩
      · exact Or.inl (by rw [er 2]; exact q2)
      · exact Or.inr ⟨by rw [er 2]; exact q2, by rw [er 3]; exact q3⟩

/-- Witness for C10 at a concrete buffer with one byte of garbage. -/
theorem C10_witness :
    ∃ g : List Nat,
      ([9, 0, 0, 1, 7, 0, 0, 1, 8, 8] : List Nat) =
        g ++ ([0, 0, 1, 7] ++ [0, 0, 1, 8, 8]) ∧
      (∀ j < g.length, isStartAt [9, 0, 0, 1, 7, 0, 0, 1, 8, 8] j = false) ∧
      ((([0, 0, 1, 7] : List Nat).take 3 = [0, 0, 1] ∧ code_len [0, 0, 1, 7] = 3) ∨
        (([0, 0, 1, 7] : List Nat).take 4 = [0, 0, 0, 1] ∧ code_len [0, 0, 1, 7] = 4)) ∧
      (∀ i, code_len [0, 0, 1, 7] ≤ i → ¬ pat3 [0, 0, 1, 7] i) ∧
      (([0, 0, 1, 8, 8] : List Nat).getD 0 2 = 0 ∧
        ([0, 0, 1, 8, 8] : List Nat).getD 1 2 = 0 ∧
        (([0, 0, 1, 8, 8] : List Nat).getD 2 2 = 1 ∨
          (([0, 0, 1, 8, 8] : List Nat).getD 2 2 = 0 ∧
            ([0, 0, 1, 8, 8] : List Nat).getD 3 2 = 1))) :=
  C10_extracted_nal_invariants (by decide)

/-! ### Parameter-set caches (services/scrcpy.rs, decode_and_stream 385-403) -/

/-- The three shared parameter-set cache slots of a scrcpy session. -/
structure NalCaches where
  sps : Option (List Nat)
  pps : Option (List Nat)
  idr : Option (List Nat)
deriving DecidableEq

/-- Cache update performed by `decode_and_stream` for each extracted NAL:
`if nal_data.len() > 4 { let nal_type_byte = if nal_data[2]==0 && nal_data[3]==1
{ nal_data[4] } else { nal_data[3] }; let nal_type = nal_type_byte & 0x1F; ... }`.
All indexing is in bounds under the length guard, so the `getD` default is
irrelevant. -/
def update_caches (nal : List Nat) (c : NalCaches) : NalCaches :=
  if decide (4 < nal.length) then
    let tb := if nal.getD 2 0 == 0 && nal.getD 3 0 == 1 then nal.getD 4 0
      else nal.getD 3 0
    let t := tb % 32
    if t == 7 then { c with sps := some nal }
    else if t == 8 then { c with pps := some nal }
    else if t == 5 then { c with idr := some nal }
    else c
  else c

/-- The byte immediately following the Annex-B start code, the
classification input named by the spec. -/
def post_code_byte (nal : List Nat) : Nat := nal.getD (code_len nal) 0

theorem getD_irrel {d : List Nat} {k a b : Nat} (h : k < d.length) :
    d.getD k a = d.getD k b := by
  simp [List.getD_eq_getElem?_getD, List.getElem?_eq_getElem h]

/-- On a start-code prefixed NAL longer than 4 bytes the cache update
classifies by the low five bits of the byte following the start code. -/
theorem update_caches_classifies (nal : List Nat) (c : NalCaches)
    (hstart : nal.take 3 = [0, 0, 1] ∨ nal.take 4 = [0, 0, 0, 1])
    (h4 : 4 < nal.length) :
    update_caches nal c =
      (if post_code_byte nal % 32 = 7 then { c with sps := some nal }
       else if post_code_byte nal % 32 = 8 then { c with pps := some nal }
       else if post_code_byte nal % 32 = 5 then { c with idr := some nal }
       else c) := by
  have htb : (if nal.getD 2 0 == 0 && nal.getD 3 0 == 1 then nal.getD 4 0
      else nal.getD 3 0) = post_code_byte nal := by
    rcases hstart with hs | hs
    · have h2 : nal.getD 2 0 = 1 := by
        have := congrArg (fun l => l.getD 2 0) hs
        simpa [getD_take (show (2:Nat) < 3 by omega)] using this
      have hcl : code_len nal = 3 := by
        unfold code_len
        rw [if_neg]
        simp only [Bool.and_eq_true, beq_iff_eq, decide_eq_true_eq]
        rintro ⟨⟨-, hx⟩, -⟩
        rw [getD_irrel (b := 2) (show (2:Nat) < nal.length by omega)] at h2
        omega
      rw [if_neg, post_code_byte, hcl]
      simp only [Bool.and_eq_true, beq_iff_eq]
      rintro ⟨hx, -⟩
      omega
    · have h2 : nal.getD 2 0 = 0 := by
        have := congrArg (fun l => l.getD 2 0) hs
        simpa [getD_take (show (2:Nat) < 4 by omega)] using this
      have h3 : nal.getD 3 0 = 1 := by
        have := congrArg (fun l => l.getD 3 0) hs
        simpa [getD_take (show (3:Nat) < 4 by omega)] using this
      have hcl : code_len nal = 4 := by
        unfold code_len
        rw [if_pos]
        simp only [Bool.and_eq_true, beq_iff_eq, decide_eq_true_eq]
        refine ⟨⟨by omega, ?_⟩, ?_⟩
        · rw [getD_irrel (b := 2) (show (2:Nat) < nal.length by omega)] at h2; exact h2
        · rw [getD_irrel (b := 2) (show (3:Nat) < nal.length by omega)] at h3; exact h3
      rw [if_pos, post_code_byte, hcl]
      simp only [Bool.and_eq_true, beq_iff_eq]
      exact ⟨h2, h3⟩
  unfold update_caches
  rw [if_pos (decide_eq_true h4), htb]
  by_cases h7 : post_code_byte nal % 32 = 7
  · simp [h7]
  · by_cases h8 : post_code_byte nal % 32 = 8
    · simp [h7, h8]
    · by_cases h5 : post_code_byte nal % 32 = 5
      · simp [h7, h8, h5]
      · simp [h7, h8, h5]

/-- C4 is false as stated: the 4-byte NAL `[0,0,1,7]` is genuinely extracted
by the streaming loop from a concrete buffer and the byte following its
start code has low five bits 7, yet the cache update (guarded by
`nal_data.len() > 4`) leaves the SPS slot — and every other slot —
unchanged. -/
theorem C4_counterexample :
    extract_all [0, 0, 1, 7, 0, 0, 1, 8, 9] = ([[0, 0, 1, 7]], [0, 0, 1, 8, 9]) ∧
      post_code_byte [0, 0, 1, 7] % 32 = 7 ∧
      update_caches [0, 0, 1, 7] ⟨none, none, none⟩ = ⟨none, none, none⟩ ∧
      (⟨none, none, none⟩ : NalCaches).sps ≠ some [0, 0, 1, 7] := by
  exact ⟨by decide, by decide, by decide, by decide⟩

/-- C4 (amended): for every extracted NAL unit longer than 4 bytes whose
byte immediately following the start code has low 5 bits 7, 8 or 5, the
loop replaces the SPS, PPS or IDR cache slot respectively (leaving the
other two unchanged); every other low-5-bits value leaves all three slots
unchanged, and a NAL of length at most 4 bytes never touches the caches. -/
theorem C4_cache_classification (nal : List Nat) (c : NalCaches)
    (hstart : nal.take 3 = [0, 0, 1] ∨ nal.take 4 = [0, 0, 0, 1]) :
    (4 < nal.length →
      ((post_code_byte nal % 32 = 7 →
          update_caches nal c = { c with sps := some nal }) ∧
        (post_code_byte nal % 32 = 8 →
          update_caches nal c = { c with pps := some nal }) ∧
        (post_code_byte nal % 32 = 5 →
          update_caches nal c = { c with idr := some nal }) ∧
        (post_code_byte nal % 32 ≠ 7 → post_code_byte nal % 32 ≠ 8 →
          post_code_byte nal % 32 ≠ 5 → update_caches nal c = c))) ∧
    (nal.length ≤ 4 → update_caches nal c = c) := by
  constructor
  · intro h4
    rw [update_caches_classifies nal c hstart h4]
    refine ⟨fun h7 => by simp [h7], fun h8 => ?_, fun h5 => ?_, fun h7 h8 h5 => ?_⟩
    · have h7 : post_code_byte nal % 32 ≠ 7 := by omega
      simp [h7, h8]
    · have h7 : post_code_byte nal % 32 ≠ 7 := by omega
      have h8 : post_code_byte nal % 32 ≠ 8 := by omega
      simp [h7, h8, h5]
    · simp [h7, h8, h5]
  · intro hle
    unfold update_caches
    rw [if_neg]
    simp only [decide_eq_true_eq]
    omega

/-- Witness for C4: an SPS NAL (type byte 0x67) longer than 4 bytes fills
the SPS slot; a 4-byte PPS-typed NAL leaves the caches untouched. -/
theorem C4_witness :
    update_caches [0, 0, 1, 103, 170] ⟨none, none, none⟩ =
      ⟨some [0, 0, 1, 103, 170], none, none⟩ ∧
      update_caches [0, 0, 1, 104] ⟨none, none, none⟩ = ⟨none, none, none⟩ :=
  ⟨((C4_cache_classification [0, 0, 1, 103, 170] ⟨none, none, none⟩
      (Or.inl (by decide))).1 (by decide)).1 (by decide),
    (C4_cache_classification [0, 0, 1, 104] ⟨none, none, none⟩
      (Or.inl (by decide))).2 (by decide)⟩

/-! ### Device-id sanitization and event names (services/scrcpy.rs:413,
commands/logcat.rs:67).  Rust strings are modelled as `List Char`; the ids
in scope are ASCII, where Lean's `Char.isAlphanum` agrees with Rust's
`char::is_alphanumeric`. -/

/-- Rust `str::replace(c, "_")` for a single-character pattern. -/
def replace_char (a : Char) (l : List Char) : List Char :=
  l.map fun ch => if ch = a then '_' else ch

/-- Sanitization of `decode_and_stream` before emitting frames:
`device_id.replace('.', "_").replace(':', "_")`. -/
def sanitize_scrcpy (id : List Char) : List Char :=
  replace_char ':' (replace_char '.' id)

/-- Sanitization of `start_logcat_stream`:
`device_id.replace(|c: char| !c.is_alphanumeric(), "_")`. -/
def sanitize_logcat (id : List Char) : List Char :=
  id.map fun ch => if !ch.isAlphanum then '_' else ch

/-- Frame event name `format!("scrcpy-frame-{}", sanitized_id)`. -/
def scrcpy_frame_event (id : List Char) : List Char :=
  "scrcpy-frame-".data ++ sanitize_scrcpy id

/-- Logcat event name `format!("logcat-line-{}", sanitized_id)`. -/
def logcat_event (id : List Char) : List Char :=
  "logcat-line-".data ++ sanitize_logcat id

/-- C5 is false as stated: for the ordinary device id `emulator-5554` the
scrcpy sanitization keeps the hyphen (it only replaces dots and colons),
while the logcat sanitization — which the claim says is the same —
replaces it with an underscore. -/
theorem C5_counterexample :
    scrcpy_frame_event "emulator-5554".data = "scrcpy-frame-emulator-5554".data ∧
      sanitize_logcat "emulator-5554".data = "emulator_5554".data ∧
      scrcpy_frame_event "emulator-5554".data ≠
        "scrcpy-frame-".data ++ sanitize_logcat "emulator-5554".data := by
  exact ⟨by decide, by decide, by decide⟩

/-- C5 (amended): the scrcpy frame event name is `scrcpy-frame-` followed by
the device id with every `.` and every `:` (and only those characters)
replaced by `_`; this is weaker than the logcat sanitization, which
replaces every non-alphanumeric character — the two agree exactly on ids
whose non-alphanumeric characters are all dots or colons. -/
theorem C5_frame_event_sanitization (id : List Char) :
    scrcpy_frame_event id =
      "scrcpy-frame-".data ++
        (id.map fun ch => if ch = '.' ∨ ch = ':' then '_' else ch) ∧
    ((∀ ch ∈ id, ¬ch.isAlphanum = true → ch = '.' ∨ ch = ':') →
      sanitize_scrcpy id = sanitize_logcat id) := by
  constructor
  · unfold scrcpy_frame_event sanitize_scrcpy replace_char
    rw [List.map_map]
    congr 1
    apply List.map_congr_left
    intro ch hmem
    by_cases hd : ch = '.'
    · subst hd; simp
    · by_cases hc : ch = ':'
      · subst hc; simp
      · simp [Function.comp, hd, hc]
  · intro hall
    unfold sanitize_scrcpy sanitize_logcat replace_char
    rw [List.map_map]
    apply List.map_congr_left
    intro ch hch
    by_cases ha : ch.isAlphanum
    · have hd : ch ≠ '.' := fun he => by rw [he] at ha; exact absurd ha (by decide)
      have hc : ch ≠ ':' := fun he => by rw [he] at ha; exact absurd ha (by decide)
      simp [Function.comp, hd, hc, ha]
    · rcases hall ch hch (by simpa using ha) with rfl | rfl
      · simp [Function.comp]
      · simp [Function.comp]

/-- Witness for C5 (amended) at a TCP-style device id, where both
sanitizations agree. -/
theorem C5_witness :
    scrcpy_frame_event "192.168.1.5:5555".data =
      "scrcpy-frame-".data ++
        ("192.168.1.5:5555".data.map fun ch =>
          if ch = '.' ∨ ch = ':' then '_' else ch) ∧
    sanitize_scrcpy "192.168.1.5:5555".data =
      sanitize_logcat "192.168.1.5:5555".data :=
  ⟨(C5_frame_event_sanitization "192.168.1.5:5555".data).1,
    (C5_frame_event_sanitization "192.168.1.5:5555".data).2 (by decide)⟩

/-! ### Error model (error.rs) and command runner (adb/executor.rs) -/

/-- `AppError { code, message, details }`. -/
structure AppError where
  code : String
  message : String
  details : Option String
deriving DecidableEq

/-- The `AdbError` enum of error.rs. -/
inductive AdbError where
  | not_found
  | execution_failed (msg : String)
  | parse_error (msg : String)
  | device_not_found (id : String)
  | unauthorized (id : String)
  | timeout
deriving DecidableEq

/-- `impl From<AdbError> for AppError` (error.rs:51-84), with the exact
codes and messages of the source. -/
def adb_error_to_app : AdbError → AppError
  | .not_found => ⟨"ADB_NOT_FOUND",
      "ADB executable not found. Please ensure Android platform-tools are installed.",
      none⟩
  | .execution_failed msg =>
      ⟨"ADB_EXECUTION_FAILED", "Failed to execute ADB command", some msg⟩
  | .parse_error msg => ⟨"ADB_PARSE_ERROR", "Failed to parse ADB output", some msg⟩
  | .device_not_found id =>
      ⟨"DEVICE_NOT_FOUND", "Device not found or disconnected", some id⟩
  | .unauthorized id =>
      ⟨"DEVICE_UNAUTHORIZED", "Device requires USB debugging authorization", some id⟩
  | .timeout => ⟨"ADB_TIMEOUT", "ADB command timed out", none⟩

/-- Observable behaviour of one spawned child process relative to the
configured timeout.  (The rare `wait_timeout`/`wait_with_output` I/O error
paths of the source are not modelled.) -/
inductive ChildBehavior where
  | spawn_fail (msg : String)
  | exits_within (status : Int) (stdout stderr : List Nat)
  | blocks_beyond_timeout
deriving DecidableEq

/-- `std::process::Output`: exit status plus captured stdout/stderr. -/
structure ProcOutput where
  status : Int
  stdout : List Nat
  stderr : List Nat
deriving DecidableEq

/-- `run_with_timeout` (adb/executor.rs:52-80); the Bool records whether
the child was forcibly killed.  A spawn failure maps to ExecutionFailed;
completion within the timeout returns the output whatever its exit status;
no exit within the timeout kills the child and returns
`ExecutionFailed("Command timed out")`. -/
def run_with_timeout : ChildBehavior → Except AppError ProcOutput × Bool
  | .spawn_fail msg => (.error (adb_error_to_app (.execution_failed msg)), false)
  | .exits_within st out err => (.ok ⟨st, out, err⟩, false)
  | .blocks_beyond_timeout =>
      (.error (adb_error_to_app (.execution_failed "Command timed out")), true)

/-- C3: a child that does not exit within the timeout is indeed forcibly
killed, but the call returns the ADB_EXECUTION_FAILED kind with details
"Command timed out" — not the ADB_TIMEOUT kind that error.rs defines for
exactly this case.  `AdbError::Timeout` is never constructed anywhere in
the repository. -/
theorem C3_timeout_wrong_error_kind :
    run_with_timeout .blocks_beyond_timeout =
      (.error ⟨"ADB_EXECUTION_FAILED", "Failed to execute ADB command",
        some "Command timed out"⟩, true) ∧
      (adb_error_to_app .timeout).code = "ADB_TIMEOUT" ∧
      (⟨"ADB_EXECUTION_FAILED", "Failed to execute ADB command",
        some "Command timed out"⟩ : AppError).code ≠ "ADB_TIMEOUT" :=
  ⟨rfl, rfl, by decide⟩

/-- Retry loop body of `run_with_retry`: `for attempt in 0..=retries`,
with a fixed 1000 ms sleep before every attempt but the first.  `fuel` is
the number of remaining loop iterations (`retries + 1` at the start);
`beh` gives the child's behaviour on each attempt.  Returns the result,
the number of attempts actually run, and the list of sleeps performed. -/
def retry_go (beh : Nat → ChildBehavior) :
    Nat → Nat → AppError → Except AppError ProcOutput × Nat × List Nat
  | _, 0, last => (.error last, 0, [])
  | attempt, fuel + 1, _last =>
    let sleeps : List Nat := if 0 < attempt then [1000] else []
    match run_with_timeout (beh attempt) with
    | (.ok out, _) => (.ok out, 1, sleeps)
    | (.error e, _) =>
      let r := retry_go beh (attempt + 1) fuel e
      (r.1, r.2.1 + 1, sleeps ++ r.2.2)

/-- `run_with_retry` (adb/executor.rs:83-114; `execute_with_config` in
adb/client.rs:96-123 has the identical loop). -/
def run_with_retry (beh : Nat → ChildBehavior) (retries : Nat) :
    Except AppError ProcOutput × Nat × List Nat :=
  retry_go beh 0 (retries + 1)
    (adb_error_to_app (.execution_failed "No attempts made"))

theorem retry_go_attempts_le (beh : Nat → ChildBehavior) :
    ∀ (fuel attempt : Nat) (last : AppError),
      (retry_go beh attempt fuel last).2.1 ≤ fuel := by
  intro fuel
  induction fuel with
  | zero => intro attempt _; simp [retry_go]
  | succ fuel ih =>
    intro attempt last
    rcases hx : run_with_timeout (beh attempt) with ⟨o, k⟩
    cases o with
    | ok out => simp [retry_go, hx]
    | error e =>
      simp only [retry_go, hx]
      have := ih (attempt + 1) e
      omega

theorem retry_go_first_success (beh : Nat → ChildBehavior) :
    ∀ (k fuel attempt : Nat) (last : AppError) (st : Int) (out err : List Nat),
      (∀ j < k, ∀ st' o' e', beh (attempt + j) ≠ .exits_within st' o' e') →
      beh (attempt + k) = .exits_within st out err → k < fuel →
      retry_go beh attempt fuel last =
        (.ok ⟨st, out, err⟩, k + 1,
          (if 0 < attempt then [1000] else []) ++ List.replicate k 1000) := by
  intro k
  induction k with
  | zero =>
    intro fuel attempt last st out err hno hk hfuel
    obtain ⟨fuel', rfl⟩ : ∃ f, fuel = f + 1 := ⟨fuel - 1, by omega⟩
    rw [Nat.add_zero] at hk
    simp [retry_go, run_with_timeout, hk]
  | succ k ih =>
    intro fuel attempt last st out err hno hk hfuel
    obtain ⟨fuel', rfl⟩ : ∃ f, fuel = f + 1 := ⟨fuel - 1, by omega⟩
    have hfail : ∀ st' o' e', beh attempt ≠ .exits_within st' o' e' := by
      intro st' o' e'
      have := hno 0 (by omega) st' o' e'
      simpa using this
    have hshift_no : ∀ j < k, ∀ st' o' e',
        beh (attempt + 1 + j) ≠ .exits_within st' o' e' := by
      intro j hj st' o' e' hcontra
      exact hno (j + 1) (by omega) st' o' e'
        (by rw [show attempt + (j + 1) = attempt + 1 + j by omega]; exact hcontra)
    have hshift_k : beh (attempt + 1 + k) = .exits_within st out err := by
      rw [show attempt + 1 + k = attempt + (k + 1) by omega]; exact hk
    rcases hb : beh attempt with msg | ⟨st', o', e'⟩ | -
    · simp only [retry_go, hb, run_with_timeout]
      rw [ih fuel' (attempt + 1) _ st out err hshift_no hshift_k (by omega)]
      simp [List.replicate_succ]
    · exact absurd hb (hfail _ _ _)
    · simp only [retry_go, hb, run_with_timeout]
      rw [ih fuel' (attempt + 1) _ st out err hshift_no hshift_k (by omega)]
      simp [List.replicate_succ]

/-- C6: the runner makes at most `retries + 1` attempts; it re-runs only
after failed attempts (spawn failure or timeout), sleeping a fixed 1000 ms
before each re-attempt; a child that completes — with any exit status,
zero or not — is returned immediately on the attempt where it completed
and is never re-run. -/
theorem C6_retry_policy (beh : Nat → ChildBehavior) (retries : Nat) :
    (run_with_retry beh retries).2.1 ≤ retries + 1 ∧
    (∀ (k : Nat) (st : Int) (out err : List Nat),
      (∀ j < k, ∀ st' o' e', beh j ≠ .exits_within st' o' e') →
      beh k = .exits_within st out err → k ≤ retries →
      run_with_retry beh retries =
        (.ok ⟨st, out, err⟩, k + 1, List.replicate k 1000)) := by
  constructor
  · exact retry_go_attempts_le beh (retries + 1) 0 _
  · intro k st out err hno hk hle
    unfold run_with_retry
    rw [retry_go_first_success beh k (retries + 1) 0 _ st out err
      (by simpa using hno) (by simpa using hk) (by omega)]
    simp

/-- Witness for C6: the first attempt times out, the second completes with
a non-zero exit status; the runner returns that output after exactly two
attempts and one 1 s sleep, without a third run. -/
theorem C6_witness :
    run_with_retry
        (fun j => if j = 0 then .blocks_beyond_timeout
          else .exits_within 1 [] [101, 114, 114]) 2 =
      (.ok ⟨1, [], [101, 114, 114]⟩, 2, [1000]) := by
  have h := (C6_retry_policy
    (fun j => if j = 0 then .blocks_beyond_timeout
      else .exits_within 1 [] [101, 114, 114]) 2).2 1 1 [] [101, 114, 114]
    (by intro j hj st' o' e'; interval_cases j; simp) (by simp) (by omega)
  simpa using h

/-! ### Scrcpy control messages (commands/scrcpy.rs, services/scrcpy.rs) -/

/-- Big-endian byte encodings of the Rust `to_be_bytes` calls; bytes are
`Nat` values below 256 and wider inputs are reduced modulo the type width,
matching the `as u16` truncating casts of the source. -/
def u16be (n : Nat) : List Nat := [n / 2^8 % 256, n % 256]

def u32be (n : Nat) : List Nat :=
  [n / 2^24 % 256, n / 2^16 % 256, n / 2^8 % 256, n % 256]

def u64be (n : Nat) : List Nat :=
  [n / 2^56 % 256, n / 2^48 % 256, n / 2^40 % 256, n / 2^32 % 256,
    n / 2^24 % 256, n / 2^16 % 256, n / 2^8 % 256, n % 256]

/-- `i32::to_be_bytes` via two's complement. -/
def i32be (n : Int) : List Nat := u32be (n % 2^32).toNat

/-- Touch payload built by `scrcpy_touch` (commands/scrcpy.rs:52-87):
action(1) + pointer_id 0(8) + x(4) + y(4) + width as u16(2) +
height as u16(2) + pressure 0xFFFF(2) + action_button 0(4) +
buttons 0(4) = 31 bytes. -/
def scrcpy_touch_data (action x y w h : Nat) : List Nat :=
  [action % 256] ++ u64be 0 ++ u32be x ++ u32be y ++
    u16be (w % 2^16) ++ u16be (h % 2^16) ++ u16be 0xFFFF ++ u32be 0 ++ u32be 0

/-- Scroll payload built by `scrcpy_scroll` (commands/scrcpy.rs:91-119). -/
def scrcpy_scroll_data (x y : Nat) (h_scroll v_scroll : Int) (w h : Nat) :
    List Nat :=
  u32be x ++ u32be y ++ u16be (w % 2^16) ++ u16be (h % 2^16) ++
    i32be h_scroll ++ i32be v_scroll ++ u32be 0

/-- Keycode payload built by `scrcpy_key` (commands/scrcpy.rs:122-136). -/
def scrcpy_key_data (action keycode metastate : Nat) : List Nat :=
  [action % 256] ++ u32be keycode ++ u32be 0 ++ u32be metastate

/-- Text payload built by `scrcpy_text` (commands/scrcpy.rs:139-147);
`text` is the UTF-8 byte sequence of the string. -/
def scrcpy_text_data (text : List Nat) : List Nat :=
  u32be text.length ++ text

/-- The observable state of a registered scrcpy session for control
injection: whether `session.control_socket` is `Some`. -/
structure ScrcpySessionM where
  control_socket : Bool
deriving DecidableEq

/-- `SCRCPY_SESSIONS.lock().get(device_id)` over an association list. -/
def lookup_session :
    List (List Char × ScrcpySessionM) → List Char → Option ScrcpySessionM
  | [], _ => none
  | (k, v) :: rest, id => if k = id then some v else lookup_session rest id

/-- `send_control_event` (services/scrcpy.rs:542-561): look the session up;
with no session, or a session whose control socket is absent, do nothing
and return Ok; otherwise write the 1-byte type followed by the payload in
one message.  The second component is the byte sequence written to the
control socket.  The session map is only read (`.get`), never modified; the
`CONTROL_WRITE_FAILED` path for an I/O error during the write is outside
this model. -/
def send_control_event (sessions : List (List Char × ScrcpySessionM))
    (device_id : List Char) (event_type : Nat) (data : List Nat) :
    Except AppError Unit × List Nat :=
  match lookup_session sessions device_id with
  | none => (.ok (), [])
  | some s =>
    if s.control_socket then (.ok (), event_type % 256 :: data)
    else (.ok (), [])

/-- `scrcpy_touch`: type 2 = INJECT_TOUCH_EVENT. -/
def scrcpy_touch (sessions : List (List Char × ScrcpySessionM))
    (device_id : List Char) (action x y w h : Nat) :
    Except AppError Unit × List Nat :=
  send_control_event sessions device_id 2 (scrcpy_touch_data action x y w h)

/-- `scrcpy_scroll`: type 3 = INJECT_SCROLL_EVENT. -/
def scrcpy_scroll (sessions : List (List Char × ScrcpySessionM))
    (device_id : List Char) (x y : Nat) (h_scroll v_scroll : Int) (w h : Nat) :
    Except AppError Unit × List Nat :=
  send_control_event sessions device_id 3
    (scrcpy_scroll_data x y h_scroll v_scroll w h)

/-- `scrcpy_key`: type 0 = INJECT_KEYCODE_EVENT. -/
def scrcpy_key (sessions : List (List Char × ScrcpySessionM))
    (device_id : List Char) (action keycode metastate : Nat) :
    Except AppError Unit × List Nat :=
  send_control_event sessions device_id 0
    (scrcpy_key_data action keycode metastate)

/-- `scrcpy_text`: type 1 = INJECT_TEXT_EVENT. -/
def scrcpy_text (sessions : List (List Char × ScrcpySessionM))
    (device_id : List Char) (text : List Nat) :
    Except AppError Unit × List Nat :=
  send_control_event sessions device_id 1 (scrcpy_text_data text)

/-- The 33-token byte string that C2 (and spec §8 scenario D) claims is
written for the touch input (action=0, pointer_id=0, x=100, y=200, w=720,
h=1280). -/
def c2_claimed_bytes : List Nat :=
  [0x02, 0x00, 0x00, 0x00, 0x00, 0x00, 0x00, 0x00, 0x00, 0x00, 0x00, 0x00,
    0x00, 0x00, 0x64, 0x00, 0x00, 0x00, 0xC8, 0x02, 0xD0, 0x05, 0x00, 0xFF,
    0xFF, 0x00, 0x00, 0x00, 0x00, 0x00, 0x00, 0x00, 0x00]

/-- C2 is false as stated: the hex string given by the claim contains 33
bytes (one `00` too many between the type byte and the x coordinate),
while the code writes exactly 32 bytes. -/
theorem C2_counterexample :
    (scrcpy_touch [("d".data, ⟨true⟩)] "d".data 0 100 200 720 1280).2.length = 32 ∧
      c2_claimed_bytes.length = 33 ∧
      (scrcpy_touch [("d".data, ⟨true⟩)] "d".data 0 100 200 720 1280).2 ≠
        c2_claimed_bytes := by
  exact ⟨by decide, by decide, by decide⟩

/-- C2 (amended): with a live session, the touch command with input
(action=0, pointer_id=0, x=100, y=200, w=720, h=1280) writes to the control
socket exactly the 32 bytes
`02 00 00 00 00 00 00 00 00 00 00 00 00 64 00 00 00 C8 02 D0 05 00 FF FF
00 00 00 00 00 00 00 00`: a 1-byte type 2 followed by the 31-byte
big-endian payload action(1) + pointer_id(8) + x(4) + y(4) + screen_w(2) +
screen_h(2) + pressure(2, 0xFFFF) + action_button(4) + buttons(4) with raw
pixel coordinates. -/
theorem C2_touch_encoding :
    scrcpy_touch [("d".data, ⟨true⟩)] "d".data 0 100 200 720 1280 =
      (.ok (), [0x02, 0x00, 0x00, 0x00, 0x00, 0x00, 0x00, 0x00, 0x00, 0x00,
        0x00, 0x00, 0x00, 0x64, 0x00, 0x00, 0x00, 0xC8, 0x02, 0xD0, 0x05,
        0x00, 0xFF, 0xFF, 0x00, 0x00, 0x00, 0x00, 0x00, 0x00, 0x00, 0x00]) ∧
      ([0x02, 0x00, 0x00, 0x00, 0x00, 0x00, 0x00, 0x00, 0x00, 0x00,
        0x00, 0x00, 0x00, 0x64, 0x00, 0x00, 0x00, 0xC8, 0x02, 0xD0, 0x05,
        0x00, 0xFF, 0xFF, 0x00, 0x00, 0x00, 0x00, 0x00, 0x00, 0x00, 0x00] :
          List Nat).length = 32 := by
  exact ⟨rfl, by decide⟩

/-- C9: with no session registered for a device id, `send_control_event`
and all four control-injection commands built on it return Ok while
writing no bytes at all; the absent session is silently swallowed.  The
session map is never modified by these calls (the model is a pure read,
mirroring the source's `.get`). -/
theorem C9_missing_session_is_silent
    (sessions : List (List Char × ScrcpySessionM)) (device_id : List Char)
    (hnone : lookup_session sessions device_id = none)
    (event_type : Nat) (data : List Nat) (action x y w h keycode meta : Nat)
    (h_scroll v_scroll : Int) (text : List Nat) :
    send_control_event sessions device_id event_type data = (.ok (), []) ∧
      scrcpy_touch sessions device_id action x y w h = (.ok (), []) ∧
      scrcpy_scroll sessions device_id x y h_scroll v_scroll w h = (.ok (), []) ∧
      scrcpy_key sessions device_id action keycode meta = (.ok (), []) ∧
      scrcpy_text sessions device_id text = (.ok (), []) := by
  unfold scrcpy_touch scrcpy_scroll scrcpy_key scrcpy_text send_control_event
  rw [hnone]
  exact ⟨rfl, rfl, rfl, rfl, rfl⟩

/-- Witness for C9 at the empty session map. -/
theorem C9_witness :
    send_control_event [] "emulator-5554".data 2 [0, 1, 2] = (.ok (), []) ∧
      scrcpy_touch [] "emulator-5554".data 0 100 200 720 1280 = (.ok (), []) ∧
      scrcpy_scroll [] "emulator-5554".data 1 2 3 (-4) 720 1280 = (.ok (), []) ∧
      scrcpy_key [] "emulator-5554".data 0 24 0 = (.ok (), []) ∧
      scrcpy_text [] "emulator-5554".data [104, 105] = (.ok (), []) :=
  C9_missing_session_is_silent [] "emulator-5554".data (by decide)
    2 [0, 1, 2] 0 100 200 720 1280 24 0 3 (-4) [104, 105]

/-! ### Parsing `adb devices -l` (adb/executor.rs:19-28, 288-327).
Rust strings are `List Char`; the ASCII operations in scope coincide with
Rust's Unicode ones on these inputs. -/

/-- Split at every occurrence of a character (the line structure of
`str::lines`; the parser trims each piece and skips empties, so the
carriage-return and trailing-newline conventions of `lines` are
immaterial). -/
def split_on_char (c : Char) : List Char → List (List Char)
  | [] => [[]]
  | x :: xs =>
    match split_on_char c xs with
    | [] => [[]]
    | h :: t => if x = c then [] :: h :: t else (x :: h) :: t

def lines_of (s : List Char) : List (List Char) := split_on_char '\n' s

/-- `str::trim`. -/
def trim_chars (l : List Char) : List Char :=
  ((l.dropWhile Char.isWhitespace).reverse.dropWhile Char.isWhitespace).reverse

/-- `str::to_lowercase` (ASCII). -/
def to_lower (l : List Char) : List Char := l.map Char.toLower

/-- `str::split_whitespace`: maximal runs of non-whitespace characters. -/
def words_aux : List Char → List Char → List (List Char)
  | [], acc => if acc = [] then [] else [acc.reverse]
  | ch :: rest, acc =>
    if ch.isWhitespace then
      if acc = [] then words_aux rest []
      else acc.reverse :: words_aux rest []
    else words_aux rest (ch :: acc)

def split_whitespace (l : List Char) : List (List Char) := words_aux l []

/-- `DeviceStatus` (adb/executor.rs:11-17); the spec's `Authorized` is the
code's `Device` case. -/
inductive DeviceStatus where
  | device
  | offline
  | unauthorized
  | unknown (raw : List Char)
deriving DecidableEq

/-- `DeviceStatus::from(&str)` (adb/executor.rs:19-28): matches on the
trimmed, lowercased token; the `Unknown` case stores that trimmed
lowercased token (`other.to_string()` where `other` ranges over
`s.trim().to_lowercase()`), not the original raw token. -/
def device_status_from (s : List Char) : DeviceStatus :=
  let t := to_lower (trim_chars s)
  if t = "device".data then .device
  else if t = "offline".data then .offline
  else if t = "unauthorized".data then .unauthorized
  else .unknown t

/-- `DeviceInfo` (adb/executor.rs:31-37). -/
structure DeviceInfo where
  id : List Char
  status : DeviceStatus
  model : Option (List Char)
  product : Option (List Char)
deriving DecidableEq

/-- One loop iteration of `parse_devices_output`: trim; skip empty lines;
split on whitespace; skip lines with fewer than two tokens; first token is
the id, the second feeds `DeviceStatus::from`; later `model:`/`product:`
tokens (checked in that order, last occurrence winning) fill the optional
fields. -/
def parse_device_line (line : List Char) : Option DeviceInfo :=
  let line := trim_chars line
  if line = [] then none
  else
    let parts := split_whitespace line
    if parts.length < 2 then none
    else
      let id := parts.getD 0 []
      let status := device_status_from (parts.getD 1 [])
      let mp := (parts.drop 2).foldl
        (fun (mp : Option (List Char) × Option (List Char)) part =>
          if part.take 6 = "model:".data then (some (part.drop 6), mp.2)
          else if part.take 8 = "product:".data then (mp.1, some (part.drop 8))
          else mp)
        (none, none)
      some ⟨id, status, mp.1, mp.2⟩

/-- `parse_devices_output` (adb/executor.rs:288-327): skip the banner line,
parse each remaining line, collecting the successes.  The Rust function
returns `Ok(devices)` unconditionally, so the error channel is omitted. -/
def parse_devices_output (output : List Char) : List DeviceInfo :=
  ((lines_of output).drop 1).filterMap parse_device_line

theorem split_on_char_ne_nil (c : Char) : ∀ l : List Char, split_on_char c l ≠ [] := by
  intro l
  cases l with
  | nil => simp [split_on_char]
  | cons x xs =>
    unfold split_on_char
    rcases split_on_char c xs with - | ⟨h, t⟩
    · simp
    · by_cases hx : x = c <;> simp [hx]

theorem split_on_char_cons (c x : Char) (xs : List Char) :
    split_on_char c (x :: xs) =
      match split_on_char c xs with
      | [] => [[]]
      | h :: t => if x = c then [] :: h :: t else (x :: h) :: t := rfl

theorem split_on_char_append (c : Char) (b : List Char) :
    ∀ a : List Char, c ∉ a →
      split_on_char c (a ++ c :: b) = a :: split_on_char c b := by
  intro a
  induction a with
  | nil =>
    intro _
    show split_on_char c (c :: b) = [] :: split_on_char c b
    rw [split_on_char_cons]
    rcases hsb : split_on_char c b with - | ⟨h, t⟩
    · exact absurd hsb (split_on_char_ne_nil c b)
    · simp
  | cons x xs ih =>
    intro hmem
    have hx : x ≠ c := fun he => hmem (by simp [he])
    have hxs : c ∉ xs := fun hc => hmem (by simp [hc])
    show split_on_char c (x :: (xs ++ c :: b)) = (x :: xs) :: split_on_char c b
    rw [split_on_char_cons, ih hxs]
    simp [hx]

/-- C7 is false as stated: an unrecognized status token is stored
lowercased, not raw. -/
theorem C7_counterexample :
    parse_devices_output "List of devices attached\nabc SIDELOAD\n".data =
      [⟨"abc".data, .unknown "sideload".data, none, none⟩] ∧
      DeviceStatus.unknown "sideload".data ≠ .unknown "SIDELOAD".data := by
  exact ⟨by decide, by decide⟩

/-- C7 (amended): the parser skips the first (banner) line; each remaining
line is trimmed, empty lines and lines with fewer than two whitespace
tokens are skipped, the first token is the identifier, the second is
mapped case-insensitively to a status — an unrecognized token is stored as
its trimmed lowercase form, not raw — and later `model:`/`product:` tokens
fill the optional fields; in particular the example output parses to
exactly one authorized device with model `sdk_phone` and product `sdk`. -/
theorem C7_devices_parsing :
    (∀ banner rest : List Char, '\n' ∉ banner →
      parse_devices_output (banner ++ '\n' :: rest) =
        (lines_of rest).filterMap parse_device_line) ∧
    parse_devices_output
        "List of devices attached\nemulator-5554    device product:sdk model:sdk_phone\n".data =
      [⟨"emulator-5554".data, .device, some "sdk_phone".data, some "sdk".data⟩] ∧
    device_status_from "DEVICE".data = .device ∧
    device_status_from " Offline ".data = .offline ∧
    device_status_from "UNAUTHORIZED".data = .unauthorized ∧
    (∀ tok : List Char, to_lower (trim_chars tok) = "device".data →
      device_status_from tok = .device) ∧
    (∀ tok : List Char,
      to_lower (trim_chars tok) ∉
        ["device".data, "offline".data, "unauthorized".data] →
      device_status_from tok = .unknown (to_lower (trim_chars tok))) := by
  refine ⟨?_, by decide, by decide, by decide, by decide, ?_, ?_⟩
  · intro banner rest hnl
    unfold parse_devices_output lines_of
    rw [split_on_char_append '\n' rest banner hnl]
    simp
  · intro tok ht
    unfold device_status_from
    simp [ht]
  · intro tok ht
    simp only [List.mem_cons, List.not_mem_nil, or_false, not_or] at ht
    unfold device_status_from
    simp [ht.1, ht.2.1, ht.2.2]

/-- Witness for C7 (amended) instantiating the banner-skip property and the
lowercased-unknown mapping. -/
theorem C7_witness :
    parse_devices_output
        ("List of devices attached".data ++ '\n' :: "x unauthorized\n".data) =
      (lines_of "x unauthorized\n".data).filterMap parse_device_line ∧
      device_status_from "Recovery".data =
        .unknown (to_lower (trim_chars "Recovery".data)) :=
  ⟨C7_devices_parsing.1 "List of devices attached".data
      "x unauthorized\n".data (by decide),
    C7_devices_parsing.2.2.2.2.2.2 "Recovery".data (by decide)⟩

/-! ### Agent response extraction (adb/agent_manager.rs) -/

/-- serde_json `Value`. -/
inductive Json where
  | null
  | bool (b : Bool)
  | num (n : Int)
  | str (s : List Char)
  | arr (xs : List Json)
  | obj (fields : List (List Char × Json))

def json_lookup : List (List Char × Json) → List Char → Option Json
  | [], _ => none
  | (k, v) :: rest, key => if k = key then some v else json_lookup rest key

/-- serde_json's `Value::index` (`resp["k"]`): field of an object, `Null`
for a missing field or a non-object value. -/
def Json.index : Json → List Char → Json
  | .obj fields, key => (json_lookup fields key).getD .null
  | _, _ => .null

/-- `Value::is_null`. -/
def Json.is_null : Json → Bool
  | .null => true
  | _ => false

/-- `list_files_fast` (agent_manager.rs:159-165): take
`resp["data"]["files"]`, substituting `json!([])` when it is null/absent. -/
def list_files_extract (resp : Json) : Json :=
  let d := (resp.index "data".data).index "files".data
  if d.is_null then .arr [] else d

/-- `get_apps_full`: `resp["data"]["apps"]`, default `json!([])`. -/
def get_apps_extract (resp : Json) : Json :=
  let d := (resp.index "data".data).index "apps".data
  if d.is_null then .arr [] else d

/-- `get_app_icon`: `resp["data"]["icon"]`, default `json!("")`. -/
def get_icon_extract (resp : Json) : Json :=
  let d := (resp.index "data".data).index "icon".data
  if d.is_null then .str [] else d

/-- `get_performance_stats`: `resp["data"]["stats"]`, default
`json!({"cpu": 0, "ram": 0})`. -/
def get_stats_extract (resp : Json) : Json :=
  let d := (resp.index "data".data).index "stats".data
  if d.is_null then .obj [("cpu".data, .num 0), ("ram".data, .num 0)] else d

/-- `get_clipboard`: `resp["data"]["text"]`, default `json!("")`. -/
def get_clipboard_extract (resp : Json) : Json :=
  let d := (resp.index "data".data).index "text".data
  if d.is_null then .str [] else d

/-- `set_clipboard`: `resp["data"]["success"]`, default `json!(false)`. -/
def set_clipboard_extract (resp : Json) : Json :=
  let d := (resp.index "data".data).index "success".data
  if d.is_null then .bool false else d

/-- `inject_tap`: `resp["data"]["success"]`, default `json!(false)`. -/
def inject_tap_extract (resp : Json) : Json :=
  let d := (resp.index "data".data).index "success".data
  if d.is_null then .bool false else d

/-- `build_index`: `resp["data"]["status"]`, default `json!("")`. -/
def build_index_extract (resp : Json) : Json :=
  let d := (resp.index "data".data).index "status".data
  if d.is_null then .str [] else d

/-- `search_files_fast`: the whole `resp["data"]`, default
`json!({"results": [], "is_indexing": false})`. -/
def search_files_extract (resp : Json) : Json :=
  let d := resp.index "data".data
  if d.is_null then
    .obj [("results".data, .arr []), ("is_indexing".data, .bool false)]
  else d

/-- C8: the LIST_FILES caller returns `response.data.files` and substitutes
`[]` when that field is absent or null (an absent field indexes to `Null`);
the concrete round-trip of spec scenario E produces `[{"name":"a"}]`; and
every other agent caller likewise substitutes its typed empty default when
its well-known field is null or absent. -/
theorem C8_agent_response_defaults (resp : Json) :
    (((resp.index "data".data).index "files".data).is_null = true →
      list_files_extract resp = .arr []) ∧
    (((resp.index "data".data).index "files".data).is_null = false →
      list_files_extract resp = (resp.index "data".data).index "files".data) ∧
    list_files_extract (.obj [("type".data, .str "LIST_FILES".data),
        ("data".data, .obj [("files".data,
          .arr [.obj [("name".data, .str "a".data)]])])]) =
      .arr [.obj [("name".data, .str "a".data)]] ∧
    (((resp.index "data".data).index "apps".data).is_null = true →
      get_apps_extract resp = .arr []) ∧
    (((resp.index "data".data).index "icon".data).is_null = true →
      get_icon_extract resp = .str []) ∧
    (((resp.index "data".data).index "stats".data).is_null = true →
      get_stats_extract resp = .obj [("cpu".data, .num 0), ("ram".data, .num 0)]) ∧
    (((resp.index "data".data).index "text".data).is_null = true →
      get_clipboard_extract resp = .str []) ∧
    (((resp.index "data".data).index "success".data).is_null = true →
      set_clipboard_extract resp = .bool false ∧
        inject_tap_extract resp = .bool false) ∧
    (((resp.index "data".data).index "status".data).is_null = true →
      build_index_extract resp = .str []) ∧
    ((resp.index "data".data).is_null = true →
      search_files_extract resp =
        .obj [("results".data, .arr []), ("is_indexing".data, .bool false)]) := by
  refine ⟨fun h => ?_, fun h => ?_, by rfl, fun h => ?_, fun h => ?_, fun h => ?_,
    fun h => ?_, fun h => ⟨?_, ?_⟩, fun h => ?_, fun h => ?_⟩ <;>
    simp only [list_files_extract, get_apps_extract, get_icon_extract,
      get_stats_extract, get_clipboard_extract, set_clipboard_extract,
      inject_tap_extract, build_index_extract, search_files_extract, h] <;>
    simp

/-- Witness for C8 at a response whose `data` object lacks every well-known
field (everything indexes to null, so every caller yields its default), and
at the concrete LIST_FILES example. -/
theorem C8_witness :
    list_files_extract (.obj [("data".data, .obj [])]) = .arr [] ∧
      list_files_extract (.obj [("type".data, .str "LIST_FILES".data),
          ("data".data, .obj [("files".data,
            .arr [.obj [("name".data, .str "a".data)]])])]) =
        .arr [.obj [("name".data, .str "a".data)]] ∧
      get_stats_extract (.obj [("data".data, .obj [])]) =
        .obj [("cpu".data, .num 0), ("ram".data, .num 0)] ∧
      search_files_extract (.obj []) =
        .obj [("results".data, .arr []), ("is_indexing".data, .bool false)] :=
  ⟨(C8_agent_response_defaults (.obj [("data".data, .obj [])])).1 (by rfl),
    (C8_agent_response_defaults (.obj [("data".data, .obj [])])).2.2.1,
    (C8_agent_response_defaults (.obj [("data".data, .obj [])])).2.2.2.2.2.1 (by rfl),
    (C8_agent_response_defaults (.obj [])).2.2.2.2.2.2.2.2.2 (by rfl)⟩
